import Mathlib

/-!
Shallow embedding of the incumbent/bound-management core of the HiGHS MIP
solver (`src/mip/HighsMipSolverData.cpp`) and proofs about it.

Doubles are modelled as extended rationals (`ER`): the code uses `kHighsInf`
sentinels and ordinary comparisons, so an extended-rational semantics with
exact arithmetic is the natural shallow embedding.  External collaborators
(LP relaxation solver, domain propagation, postsolve, node queue) are
modelled as oracle inputs to every operation, mirroring the narrow
interfaces through which the code invokes them.
-/

set_option autoImplicit false

namespace HighsMip

/-- Extended rationals: the value space of the C++ `double` fields, with
`kHighsInf` / `-kHighsInf` as explicit infinities. -/
inductive ER where
  | ninf : ER
  | fin : ℚ → ER
  | pinf : ER
deriving DecidableEq, Repr

/-- Boolean `≤` on `ER`, matching IEEE comparisons on non-NaN doubles. -/
def ER.ble : ER → ER → Bool
  | .ninf, _ => true
  | _, .pinf => true
  | .fin a, .fin b => decide (a ≤ b)
  | .pinf, _ => false
  | _, .ninf => false

/-- Boolean `<` on `ER`. -/
def ER.blt : ER → ER → Bool
  | _, .ninf => false
  | .ninf, _ => true
  | .fin a, .fin b => decide (a < b)
  | .pinf, _ => false
  | .fin _, .pinf => true

/-- `std::min` on `ER`. -/
def ER.emin (a b : ER) : ER := if ER.ble a b then a else b

/-- `std::max` on `ER`. -/
def ER.emax (a b : ER) : ER := if ER.ble a b then b else a

/-- Add a finite rational to an extended rational (infinities absorb). -/
def ER.addQ : ER → ℚ → ER
  | .ninf, _ => .ninf
  | .pinf, _ => .pinf
  | .fin a, q => .fin (a + q)

/-- Negation on `ER`. -/
def ER.eneg : ER → ER
  | .ninf => .pinf
  | .pinf => .ninf
  | .fin a => .fin (-a)

/-- The finite part of an `ER` value (0 for infinities); used at points the
code reaches only with finite values. -/
def ER.finPart : ER → ℚ
  | .fin a => a
  | _ => 0

@[simp] theorem ER.ble_ninf_left (a : ER) : ER.ble .ninf a = true := by
  cases a <;> rfl

@[simp] theorem ER.ble_pinf_right (a : ER) : ER.ble a .pinf = true := by
  cases a <;> rfl

@[simp] theorem ER.ble_fin_fin (a b : ℚ) :
    ER.ble (.fin a) (.fin b) = decide (a ≤ b) := rfl

@[simp] theorem ER.blt_fin_fin (a b : ℚ) :
    ER.blt (.fin a) (.fin b) = decide (a < b) := rfl

@[simp] theorem ER.emin_pinf_left (a : ER) : ER.emin .pinf a = a := by
  cases a <;> rfl

@[simp] theorem ER.finPart_fin (q : ℚ) : ER.finPart (.fin q) = q := rfl

theorem ER.ble_of_not_ble {a b : ER} (h : ER.ble a b = false) :
    ER.ble b a = true := by
  cases a <;> cases b <;> simp_all [ER.ble]
  linarith

theorem ER.ble_trans {a b c : ER} (h₁ : ER.ble a b = true)
    (h₂ : ER.ble b c = true) : ER.ble a c = true := by
  cases a <;> cases b <;> cases c <;> simp_all [ER.ble]
  linarith

theorem ER.ble_of_blt {a b : ER} (h : ER.blt a b = true) :
    ER.ble a b = true := by
  cases a <;> cases b <;> simp_all [ER.blt, ER.ble]
  linarith

theorem ER.ble_emax {a b c : ER} (h₁ : ER.ble a c = true)
    (h₂ : ER.ble b c = true) : ER.ble (ER.emax a b) c = true := by
  unfold ER.emax
  split <;> assumption

theorem ER.ble_addQ_mono {a b : ER} (q : ℚ) (h : ER.ble a b = true) :
    ER.ble (a.addQ q) (b.addQ q) = true := by
  cases a <;> cases b <;> simp_all [ER.ble, ER.addQ]

/-- Objective sense (`ObjSense`). -/
inductive Sense where
  | kMinimize : Sense
  | kMaximize : Sense
deriving DecidableEq, Repr

/-- Model status values relevant to this core (`HighsModelStatus`). -/
inductive ModelStatus where
  | kNotset
  | kOptimal
  | kInfeasible
  | kUnbounded
  | kUnboundedOrInfeasible
  | kObjectiveTarget
  | kSolutionLimit
  | kTimeLimit
  | kInterrupt
deriving DecidableEq, Repr

/-- LP relaxation result statuses (`HighsLpRelaxation::Status`). -/
inductive LpStatus where
  | kNotset
  | kOptimal
  | kInfeasible
  | kUnbounded
  | kUnscaledDualFeasible
  | kUnscaledPrimalFeasible
  | kError
deriving DecidableEq, Repr

/-- Solver-wide configuration: tolerances, objective data and option values
read by the embedded functions.  `nextafterDown` models
`std::nextafter(·, -kHighsInf)`. -/
structure Cfg where
  feastol : ℚ
  epsilon : ℚ
  offset : ℚ
  sense : Sense
  objIntegral : Bool
  objScale : ℚ
  nextafterDown : ℚ → ℚ
  mip_abs_gap : ℚ
  mip_rel_gap : ℚ
  submip : Bool
  userCallbackPresent : Bool
  mipSolutionCallbackActive : Bool
  objective_bound : ER
  objective_target : ER
  mip_max_nodes : Option ℤ
  mip_max_leaves : Option ℤ
  mip_max_improving_sols : Option ℤ
  time_limit : ER

/-- `HighsMipSolverData::computeNewUpperLimit` (lines 206-245). -/
def computeNewUpperLimit (cfg : Cfg) (ub mip_abs_gap mip_rel_gap : ℚ) : ℚ :=
  if cfg.objIntegral then
    let lim₀ : ℚ := (⌊cfg.objScale * ub - 1/2⌋ : ℤ) / cfg.objScale
    let lim₁ : ℚ :=
      if mip_rel_gap ≠ 0 then
        min lim₀ (ub - (⌈mip_rel_gap * |ub + cfg.offset| * cfg.objScale -
          cfg.epsilon⌉ : ℤ) / cfg.objScale)
      else lim₀
    let lim₂ : ℚ :=
      if mip_abs_gap ≠ 0 then
        min lim₁ (ub - (⌈mip_abs_gap * cfg.objScale - cfg.epsilon⌉ : ℤ) /
          cfg.objScale)
      else lim₁
    -- add feasibility tolerance so that the next best integer feasible
    -- solution is definitely included in the remaining search
    lim₂ + cfg.feastol
  else
    let lim₀ : ℚ := min (ub - cfg.feastol) (cfg.nextafterDown ub)
    let lim₁ : ℚ :=
      if mip_rel_gap ≠ 0 then
        min lim₀ (ub - mip_rel_gap * |ub + cfg.offset|)
      else lim₀
    if mip_abs_gap ≠ 0 then min lim₁ (ub - mip_abs_gap) else lim₁

/-- The mutable solve state owned by `HighsMipSolverData` together with the
incumbent-solution fields of `HighsMipSolver` (`mipsolver.solution_`,
`mipsolver.solution_objective_` and the three violation fields) that the
embedded operations read and write. -/
structure SolveState where
  lower_bound : ER
  upper_bound : ER
  upper_limit : ER
  optimality_limit : ER
  incumbent : List ℚ
  pruned_treeweight : ℚ
  num_nodes : ℤ
  num_leaves : ℤ
  numImprovingSols : ℤ
  numRestarts : ℤ
  num_nodes_before_run : ℤ
  num_leaves_before_run : ℤ
  modelstatus : ModelStatus
  sol_stored : List ℚ
  sol_objective : ER
  sol_bound_violation : ℚ
  sol_integrality_violation : ℚ
  sol_row_violation : ℚ
deriving DecidableEq, Repr

/-- The three violation measures computed by one violation-check pass of
`transformNewIntegerFeasibleSolution` over the original model. -/
structure Violations where
  bound : ℚ
  integrality : ℚ
  row : ℚ
deriving DecidableEq, Repr

/-- The data one violation-check pass of
`transformNewIntegerFeasibleSolution` extracts from a (postsolved) solution:
its violations, its quad-precision original-space objective (including the
original offset) and its column values. -/
structure TransformIter where
  viol : Violations
  objVal : ℚ
  colValue : List ℚ
deriving DecidableEq, Repr

/-- Oracle for one `transformNewIntegerFeasibleSolution` call: the result of
the first violation-check pass (after postsolve and row-value computation,
both external), and — if the repair LP (integers fixed to rounded values)
reports a primal-feasible solution — the recheck pass on the repaired
solution (`none` when the repair LP is not primal feasible). -/
structure TransformOracle where
  first : TransformIter
  repair : Option TransformIter
deriving DecidableEq, Repr

/-- `bound_violation_ ≤ tol && integrality_violation_ ≤ tol &&
row_violation_ ≤ tol` (lines 779-783). -/
def violFeasible (tol : ℚ) (v : Violations) : Bool :=
  decide (v.bound ≤ tol) && decide (v.integrality ≤ tol) &&
    decide (v.row ≤ tol)

/-- The `try_again:` pass with `allow_try_again == false`: the violation
check runs once and no further repair is attempted (the `!feasible &&
allow_try_again` guard is false).  Returns the final iterate together with
(number of violation-check passes, number of repair attempts). -/
def transformPassFinal (iter : TransformIter) : TransformIter × ℕ × ℕ :=
  (iter, 1, 0)

/-- The `try_again:` loop of `transformNewIntegerFeasibleSolution`
(lines 695-813) as the explicit two-iteration procedure it encodes with the
`allow_try_again` flag and the backward `goto`: one violation-check pass; if
infeasible, one repair attempt (fix integers to rounded values, resolve the
continuous LP — external, summarized by the oracle); if the repair LP is
primal feasible, exactly one recheck pass with `allow_try_again == false`.
Returns the final iterate together with (violation-check passes, repair
attempts). -/
def transformLoop (tol : ℚ) (o : TransformOracle) : TransformIter × ℕ × ℕ :=
  if violFeasible tol o.first.viol then (o.first, 1, 0)
  else
    match o.repair with
    | some repaired =>
        let (r, passes, repairs) := transformPassFinal repaired
        (r, 1 + passes, 1 + repairs)
    | none => (o.first, 1, 1)

/-- `currentFeasible` (lines 843-850): the stored solution exists
(`solution_objective_ != kHighsInf`) and all three of its stored violations
are within `mip_feasibility_tolerance`. -/
def feasibleIncumbentExists (cfg : Cfg) (s : SolveState) : Bool :=
  decide (s.sol_objective ≠ ER.pinf) &&
    decide (s.sol_bound_violation ≤ cfg.feastol) &&
    decide (s.sol_integrality_violation ≤ cfg.feastol) &&
    decide (s.sol_row_violation ≤ cfg.feastol)

/-- `HighsMipSolverData::transformNewIntegerFeasibleSolution`
(lines 679-918): postsolve, violation measurement, the one-shot repair loop,
storage of the solution in the original space, and the returned
transformed-space objective.  Returns the objective value handed back to
`addIncumbent` and the updated state. -/
def transformNewIntegerFeasibleSolution (cfg : Cfg) (s : SolveState)
    (possibly_store_as_new_incumbent : Bool) (o : TransformOracle) :
    ER × SolveState :=
  let iterF := (transformLoop cfg.feastol o).1
  let feasible := violFeasible cfg.feastol iterF.viol
  -- the objective value in the transformed space (lines 911-917)
  let transformed : ℚ :=
    if cfg.sense = Sense.kMaximize then -(iterF.objVal + cfg.offset)
    else iterF.objVal - cfg.offset
  if possibly_store_as_new_incumbent then
    if feasible then
      (ER.fin transformed,
        { s with
            sol_bound_violation := iterF.viol.bound
            sol_integrality_violation := iterF.viol.integrality
            sol_row_violation := iterF.viol.row
            sol_stored := iterF.colValue
            sol_objective := ER.fin iterF.objVal })
    else
      -- if the current incumbent is non existent or also not feasible we
      -- still store the new one; return infinity so that it is not used
      -- for bounding (lines 897-908)
      if feasibleIncumbentExists cfg s then (ER.pinf, s)
      else
        (ER.pinf,
          { s with
              sol_bound_violation := iterF.viol.bound
              sol_integrality_violation := iterF.viol.integrality
              sol_row_violation := iterF.viol.row
              sol_stored := iterF.colValue
              sol_objective := ER.fin iterF.objVal })
  else (ER.fin transformed, s)

/-- Oracle for the external side effects of the improving branch of
`addIncumbent`: whether `domain.propagate()` (plus root reduced-cost
fixing) leaves the domain infeasible, whether
`cliquetable.extractObjCliques` then leaves it infeasible, and the pruned
weight returned by `nodequeue.performBounding(upper_limit)`. -/
structure IncExt where
  domainInfeasible : Bool
  cliqueInfeasible : Bool
  boundingDelta : ℚ
deriving DecidableEq, Repr

/-- `HighsMipSolverData::addIncumbent` (lines 1048-1110).  `sol` and
`solobj` are the candidate and its objective as passed by the caller;
`tOracle` summarizes the external parts of the transformation call;
`ext` the external effects of domain propagation / clique extraction /
node-queue bounding on an improving incumbent. -/
def addIncumbent (cfg : Cfg) (s : SolveState) (sol : List ℚ) (solobj : ℚ)
    (tOracle : TransformOracle) (ext : IncExt) : Bool × SolveState :=
  let execute_mip_solution_callback :=
    !cfg.submip && cfg.mipSolutionCallbackActive
  let possibly_store_as_new_incumbent :=
    ER.blt (ER.fin solobj) s.upper_bound
  let get_transformed_solution :=
    possibly_store_as_new_incumbent || execute_mip_solution_callback
  let ts :=
    if get_transformed_solution then
      transformNewIntegerFeasibleSolution cfg s
        possibly_store_as_new_incumbent tOracle
    else (ER.fin 0, s)
  let transformed_solobj := ts.1
  let s := ts.2
  if possibly_store_as_new_incumbent then
    if ER.ble s.upper_bound transformed_solobj then (false, s)
    else
      let s := { s with upper_bound := transformed_solobj,
                        incumbent := sol }
      let new_upper_limit :=
        computeNewUpperLimit cfg transformed_solobj.finPart 0 0
      if ER.blt (ER.fin new_upper_limit) s.upper_limit then
        let s := { s with
            numImprovingSols := s.numImprovingSols + 1
            upper_limit := ER.fin new_upper_limit
            optimality_limit := ER.fin (computeNewUpperLimit cfg
              transformed_solobj.finPart cfg.mip_abs_gap cfg.mip_rel_gap) }
        if ext.domainInfeasible then
          (true, { s with pruned_treeweight := 1 })
        else if ext.cliqueInfeasible then
          (true, { s with pruned_treeweight := 1 })
        else
          (true, { s with pruned_treeweight :=
            s.pruned_treeweight + ext.boundingDelta })
      else (true, s)
  else
    if s.incumbent = [] then (true, { s with incumbent := sol })
    else (true, s)

/-- Whether an `addIncumbent` call stores its candidate as the new bounding
incumbent: the candidate objective improves on `upper_bound` and the
transformed objective still does (the code then executes
`upper_bound = solobj; incumbent = sol;`). -/
def storesAsBoundingIncumbent (cfg : Cfg) (s : SolveState) (solobj : ℚ)
    (tOracle : TransformOracle) : Bool :=
  let possibly_store := ER.blt (ER.fin solobj) s.upper_bound
  possibly_store &&
    !(ER.ble s.upper_bound
      (transformNewIntegerFeasibleSolution cfg s possibly_store tOracle).1)

/-- Oracle for one iteration of the `evaluateRootLp` fixed-point loop:
the outcomes of the external calls made during that iteration. -/
structure RootIter where
  /-- `domain.infeasible()` after `domain.propagate()` and orbital fixing. -/
  domainInfeasible : Bool
  /-- `!domain.getChangedCols().empty()` before the resolve decision. -/
  changedCols : Bool
  /-- `lp.getLpSolver().getModelStatus() == HighsModelStatus::kNotset`. -/
  lpNotset : Bool
  /-- status returned by `lp.resolveLp(&domain)` when a resolve happens. -/
  resolveStatus : LpStatus
  /-- `lp.getStatus()` when no resolve happens. -/
  prevStatus : LpStatus
  /-- `lp.getFractionalIntegers().empty()` after an optimal resolve. -/
  fracIntsEmpty : Bool
  /-- `lp.getLpSolver().getSolution().col_value` for the incumbent call. -/
  lpSolution : List ℚ
  /-- `lp.getObjective()`. -/
  lpObjective : ℚ
  /-- oracle of the embedded `addIncumbent` transformation call. -/
  tOracle : TransformOracle
  /-- oracle of the embedded `addIncumbent` external effects. -/
  incExt : IncExt
  /-- `lp.unscaledDualFeasible(lp.getStatus())`. -/
  dualFeasible : Bool
  /-- `domain.getChangedCols().empty()` at the end of the iteration. -/
  changedColsEmptyAtEnd : Bool

/-- One iteration of the `do { ... } while(true)` loop of
`HighsMipSolverData::evaluateRootLp` (lines 1323-1409).  The first
component is `some status` when the iteration executes one of the loop's
`return` statements (or exits via the final `if`), and `none` when the loop
repeats because column bounds changed again. -/
def rootLpStep (cfg : Cfg) (s : SolveState) (it : RootIter) :
    Option LpStatus × SolveState :=
  if it.domainInfeasible then
    (some LpStatus.kInfeasible,
      { s with lower_bound := ER.emin ER.pinf s.upper_bound
               pruned_treeweight := 1
               num_nodes := s.num_nodes + 1
               num_leaves := s.num_leaves + 1 })
  else
    let lpBoundsChanged := it.changedCols
    let resolve := lpBoundsChanged || it.lpNotset
    let status := if resolve then it.resolveStatus else it.prevStatus
    if resolve && decide (status = LpStatus.kUnbounded) then
      (some LpStatus.kUnbounded,
        { s with
            modelstatus :=
              if s.sol_stored = [] then ModelStatus.kUnboundedOrInfeasible
              else ModelStatus.kUnbounded
            pruned_treeweight := 1
            num_nodes := s.num_nodes + 1
            num_leaves := s.num_leaves + 1 })
    else
      -- `status == kOptimal && getFractionalIntegers().empty() &&
      --  addIncumbent(...)`: the incumbent call (with its side effects)
      -- only happens when the first two conjuncts hold
      let inc :=
        if resolve && decide (status = LpStatus.kOptimal) &&
            it.fracIntsEmpty then
          addIncumbent cfg s it.lpSolution it.lpObjective it.tOracle
            it.incExt
        else (false, s)
      let s := inc.2
      if resolve && decide (status = LpStatus.kOptimal) &&
          it.fracIntsEmpty && inc.1 then
        (some LpStatus.kInfeasible,
          { s with
              modelstatus := ModelStatus.kOptimal
              lower_bound := s.upper_bound
              pruned_treeweight := 1
              num_nodes := s.num_nodes + 1
              num_leaves := s.num_leaves + 1 })
      else
        if status = LpStatus.kInfeasible then
          (some LpStatus.kInfeasible,
            { s with lower_bound := ER.emin ER.pinf s.upper_bound
                     pruned_treeweight := 1
                     num_nodes := s.num_nodes + 1
                     num_leaves := s.num_leaves + 1 })
        else
          let s :=
            if it.dualFeasible then
              { s with lower_bound :=
                  ER.emax (ER.fin it.lpObjective) s.lower_bound }
            else s
          if ER.blt s.optimality_limit s.lower_bound then
            (some LpStatus.kInfeasible,
              { s with pruned_treeweight := 1
                       num_nodes := s.num_nodes + 1
                       num_leaves := s.num_leaves + 1 })
          else
            if it.changedColsEmptyAtEnd then (some status, s)
            else (none, s)

/-- `HighsMipSolverData::evaluateRootLp` as the iteration of `rootLpStep`
over a (finite) stream of per-iteration oracles; the loop body repeats
until an iteration returns. -/
def evaluateRootLp (cfg : Cfg) (s : SolveState) :
    List RootIter → Option LpStatus × SolveState
  | [] => (none, s)
  | it :: rest =>
      match rootLpStep cfg s it with
      | (some st, s') => (some st, s')
      | (none, s') => evaluateRootLp cfg s' rest

/-- The solve-state updates of `HighsMipSolverData::performRestart`
(lines 926-986) on the fields modelled here: restart counting, the
before-run snapshots, the round-trip of the bound/limit fields into the
original model space, and the reset of the incumbent, the pruned tree
weight and the node queue.  The basis expansion and the re-presolve it
triggers are external. -/
def performRestartCore (cfg : Cfg) (s : SolveState) : SolveState :=
  { s with
      numRestarts := s.numRestarts + 1
      num_leaves_before_run := s.num_leaves
      num_nodes_before_run := s.num_nodes
      upper_limit := s.upper_limit.addQ cfg.offset
      optimality_limit := s.optimality_limit.addQ cfg.offset
      upper_bound := s.upper_bound.addQ cfg.offset
      lower_bound := s.lower_bound.addQ cfg.offset
      incumbent := []
      pruned_treeweight := 0 }

/-- Per-call dynamic inputs of `checkLimits`: the user-interrupt callback
result and the wall clock reading. -/
structure LimitProbe where
  interrupt : Bool
  timeRead : ℚ
deriving DecidableEq, Repr

/-- Status transition used by every limit branch: the terminal status is
written only while it is still `kNotset`. -/
def setIfNotset (cur new : ModelStatus) : ModelStatus :=
  if cur = ModelStatus.kNotset then new else cur

/-- `int(sense) * v` for `int(sense) ∈ {1, -1}`: the sign-aware value used
in the objective-target comparison. -/
def senseApply (sense : Sense) (v : ER) : ER :=
  match sense with
  | Sense.kMinimize => v
  | Sense.kMaximize => v.eneg

/-- The objective-target condition of `checkLimits` (lines 1790-1808):
a solution exists, a target is set and
`int_sense * solution_objective_ < int_sense * objective_target`. -/
def objectiveTargetReached (cfg : Cfg) (s : SolveState) : Bool :=
  !cfg.submip && ER.blt s.sol_objective ER.pinf &&
    ER.blt ER.ninf cfg.objective_target &&
    ER.blt (senseApply cfg.sense s.sol_objective)
      (senseApply cfg.sense cfg.objective_target)

/-- `lim != kHighsIInf && v >= lim` for an integer limit option
(`none` models the `kHighsIInf` sentinel). -/
def intLimitHit (lim : Option ℤ) (v : ℤ) : Bool :=
  match lim with
  | none => false
  | some m => decide (v ≥ m)

/-- `HighsMipSolverData::checkLimits` (lines 1771-1860).  Returns the stop
flag (the C++ return value) and the model status after the call
(`mipsolver.modelstatus_` is written through the `const` method's
reference). -/
def checkLimits (cfg : Cfg) (s : SolveState) (probe : LimitProbe)
    (nodeOffset : ℤ) : Bool × ModelStatus :=
  if !cfg.submip && cfg.userCallbackPresent && probe.interrupt then
    (true, setIfNotset s.modelstatus ModelStatus.kInterrupt)
  else if objectiveTargetReached cfg s then
    (true, setIfNotset s.modelstatus ModelStatus.kObjectiveTarget)
  else if intLimitHit cfg.mip_max_nodes (s.num_nodes + nodeOffset) then
    (true, setIfNotset s.modelstatus ModelStatus.kSolutionLimit)
  else if intLimitHit cfg.mip_max_leaves s.num_leaves then
    (true, setIfNotset s.modelstatus ModelStatus.kSolutionLimit)
  else if intLimitHit cfg.mip_max_improving_sols s.numImprovingSols then
    (true, setIfNotset s.modelstatus ModelStatus.kSolutionLimit)
  else if ER.ble cfg.time_limit (ER.fin probe.timeRead) then
    (true, setIfNotset s.modelstatus ModelStatus.kTimeLimit)
  else (false, s.modelstatus)

/-- The ordered list of (condition, terminal status) pairs that
`checkLimits` evaluates: user interrupt, objective target, node count,
leaf count, improving-solution count, wall-clock time. -/
def limitConds (cfg : Cfg) (s : SolveState) (probe : LimitProbe)
    (nodeOffset : ℤ) : List (Bool × ModelStatus) :=
  [ (!cfg.submip && cfg.userCallbackPresent && probe.interrupt,
      ModelStatus.kInterrupt),
    (objectiveTargetReached cfg s, ModelStatus.kObjectiveTarget),
    (intLimitHit cfg.mip_max_nodes (s.num_nodes + nodeOffset),
      ModelStatus.kSolutionLimit),
    (intLimitHit cfg.mip_max_leaves s.num_leaves,
      ModelStatus.kSolutionLimit),
    (intLimitHit cfg.mip_max_improving_sols s.numImprovingSols,
      ModelStatus.kSolutionLimit),
    (ER.ble cfg.time_limit (ER.fin probe.timeRead),
      ModelStatus.kTimeLimit) ]

/-- Snap a finite value within `epsilon` of zero to exactly zero
(`if (std::abs(v) <= epsilon) v = 0`). -/
def snapQ (epsilon q : ℚ) : ℚ := if |q| ≤ epsilon then 0 else q

/-- The snap applied to an extended value (infinities are unaffected, as
`std::abs(±inf) <= epsilon` is false). -/
def ER.snap (epsilon : ℚ) : ER → ER
  | .fin q => .fin (snapQ epsilon q)
  | e => e

/-- The gap expression of `limitsToBounds` for a finite primal bound:
`0` or `+inf` when the primal bound is zero, otherwise
`100 * (primal_bound - dual_bound) / |primal_bound|` (with the IEEE value
when the dual bound is infinite). -/
def gapOf (primal : ℚ) (dual : ER) : ER :=
  if primal = 0 then
    if dual = ER.fin 0 then ER.fin 0 else ER.pinf
  else
    match dual with
    | ER.ninf => ER.pinf
    | ER.pinf => ER.ninf
    | ER.fin d => ER.fin (100 * (primal - d) / |primal|)

/-- `HighsMipSolverData::limitsToBounds` (lines 1937-1967): the
user-facing (dual bound, primal bound, gap in percent). -/
def limitsToBounds (cfg : Cfg) (s : SolveState) : ER × ER × ER :=
  let dual_bound := (s.lower_bound.addQ cfg.offset).snap cfg.epsilon
  let primal_bound : ER := ER.pinf
  let mip_rel_gap : ER := ER.pinf
  let step :=
    if s.upper_bound ≠ ER.pinf then
      let primal_bound := (s.upper_bound.addQ cfg.offset).snap cfg.epsilon
      let dual_bound := ER.emin dual_bound primal_bound
      let mip_rel_gap := gapOf primal_bound.finPart dual_bound
      (dual_bound, primal_bound, mip_rel_gap)
    else (dual_bound, primal_bound, mip_rel_gap)
  let dual_bound := step.1
  let primal_bound := ER.emin cfg.objective_bound step.2.1
  let mip_rel_gap := step.2.2
  -- Adjust objective sense in case of maximization problem
  if cfg.sense = Sense.kMaximize then
    (dual_bound.eneg, primal_bound.eneg, mip_rel_gap)
  else (dual_bound, primal_bound, mip_rel_gap)

/-- The model data read by the candidate-solution feasibility checks:
column bounds, costs and integrality, and the rowwise matrix
(`ARstart_`/`ARindex_`/`ARvalue_` in CSR form, here one `(index, value)`
list per row) with the row bounds. -/
structure MipModel where
  num_col : ℕ
  col_lower : List ℚ
  col_upper : List ℚ
  col_cost : List ℚ
  integrality : List Bool
  num_row : ℕ
  row_lower : List ℚ
  row_upper : List ℚ
  rowEntries : List (List (ℕ × ℚ))
deriving Repr

/-- `HighsMipSolverData::solutionColFeasible` (lines 24-39): `none` models
`return false`; `some obj` models `return true` with the computed
column-cost inner product written to `obj`.  The dimension guard comes
first, so the element loop only runs — and the vector is only read — when
the length matches `num_col_`. -/
def solutionColFeasible (m : MipModel) (feastol : ℚ) (sol : List ℚ) :
    Option ℚ :=
  if sol.length ≠ m.num_col then none
  else
    (List.range m.num_col).foldl
      (fun acc i =>
        match acc with
        | none => none
        | some obj =>
            let x := sol.getD i 0
            if x < m.col_lower.getD i 0 - feastol then none
            else if x > m.col_upper.getD i 0 + feastol then none
            else if m.integrality.getD i false &&
                decide (|x - ⌊x + 1/2⌋| > feastol) then none
            else some (obj + m.col_cost.getD i 0 * x))
      (some 0)

/-- `HighsMipSolverData::solutionRowFeasible` (lines 41-56). -/
def solutionRowFeasible (m : MipModel) (feastol : ℚ) (sol : List ℚ) :
    Bool :=
  (List.range m.num_row).all fun i =>
    let rowactivity :=
      (m.rowEntries.getD i []).foldl
        (fun a jv => a + sol.getD jv.1 0 * jv.2) 0
    decide (rowactivity ≤ m.row_upper.getD i 0 + feastol) &&
      decide (m.row_lower.getD i 0 - feastol ≤ rowactivity)

/-- `HighsMipSolverData::checkSolution` (lines 58-63). -/
def checkSolution (m : MipModel) (feastol : ℚ) (sol : List ℚ) : Bool :=
  match solutionColFeasible m feastol sol with
  | none => false
  | some _ => solutionRowFeasible m feastol sol

/-- `HighsMipSolverData::trySolution` (lines 65-71): both feasibility
checks, then the `addIncumbent` call with the computed objective.  Returns
the C++ return value and the state after the call. -/
def trySolution (cfg : Cfg) (m : MipModel) (s : SolveState) (sol : List ℚ)
    (tOracle : TransformOracle) (ext : IncExt) : Bool × SolveState :=
  match solutionColFeasible m cfg.feastol sol with
  | none => (false, s)
  | some obj =>
      if !solutionRowFeasible m cfg.feastol sol then (false, s)
      else addIncumbent cfg s sol obj tOracle ext

/-! ### Helper lemmas -/

theorem transform_snd_fields (cfg : Cfg) (s : SolveState) (p : Bool)
    (t : TransformOracle) :
    (transformNewIntegerFeasibleSolution cfg s p t).2.lower_bound =
        s.lower_bound ∧
    (transformNewIntegerFeasibleSolution cfg s p t).2.upper_bound =
        s.upper_bound ∧
    (transformNewIntegerFeasibleSolution cfg s p t).2.upper_limit =
        s.upper_limit ∧
    (transformNewIntegerFeasibleSolution cfg s p t).2.optimality_limit =
        s.optimality_limit ∧
    (transformNewIntegerFeasibleSolution cfg s p t).2.pruned_treeweight =
        s.pruned_treeweight ∧
    (transformNewIntegerFeasibleSolution cfg s p t).2.incumbent =
        s.incumbent ∧
    (transformNewIntegerFeasibleSolution cfg s p t).2.numImprovingSols =
        s.numImprovingSols ∧
    (transformNewIntegerFeasibleSolution cfg s p t).2.modelstatus =
        s.modelstatus := by
  unfold transformNewIntegerFeasibleSolution
  cases hv : violFeasible cfg.feastol (transformLoop cfg.feastol t).1.viol <;>
    cases hc : feasibleIncumbentExists cfg s <;> cases p <;> simp [hv, hc]

/-! ### Concrete fixtures used by witnesses and counterexamples -/

/-- A concrete configuration: minimization, integral objective with scale 1,
`feastol = 1e-6`, `epsilon = 1e-9`, zero offset, no gaps, no limits. -/
def cfg₀ : Cfg :=
  { feastol := 1/1000000
    epsilon := 1/1000000000
    offset := 0
    sense := Sense.kMinimize
    objIntegral := true
    objScale := 1
    nextafterDown := fun q => q - 1/1000000000
    mip_abs_gap := 0
    mip_rel_gap := 0
    submip := false
    userCallbackPresent := false
    mipSolutionCallbackActive := false
    objective_bound := ER.pinf
    objective_target := ER.ninf
    mip_max_nodes := none
    mip_max_leaves := none
    mip_max_improving_sols := none
    time_limit := ER.pinf }

/-- The same configuration with a non-integral objective. -/
def cfg₁ : Cfg := { cfg₀ with objIntegral := false }

/-- A concrete solve state as set up by `init()`/`runSetup()`: no bounds
proven, no incumbent, nothing stored. -/
def state₀ : SolveState :=
  { lower_bound := ER.ninf
    upper_bound := ER.pinf
    upper_limit := ER.pinf
    optimality_limit := ER.pinf
    incumbent := []
    pruned_treeweight := 0
    num_nodes := 0
    num_leaves := 0
    numImprovingSols := 0
    numRestarts := 0
    num_nodes_before_run := 0
    num_leaves_before_run := 0
    modelstatus := ModelStatus.kNotset
    sol_stored := []
    sol_objective := ER.pinf
    sol_bound_violation := 0
    sol_integrality_violation := 0
    sol_row_violation := 0 }

/-- A transformation oracle whose first pass is clean: zero violations,
objective 7, solution `[7]`. -/
def tOracle₀ : TransformOracle :=
  { first := { viol := { bound := 0, integrality := 0, row := 0 }
               objVal := 7, colValue := [7] }
    repair := none }

/-- A transformation oracle whose first pass has a bound violation of 1 and
whose repair LP is not primal feasible. -/
def tOracleBad : TransformOracle :=
  { first := { viol := { bound := 1, integrality := 0, row := 0 }
               objVal := 5, colValue := [5] }
    repair := none }

/-- A trivial external-effects oracle for `addIncumbent`. -/
def ext₀ : IncExt :=
  { domainInfeasible := false, cliqueInfeasible := false,
    boundingDelta := 0 }

/-! ### C3: cutoff computation with zero gaps -/

/-- C3 (amended): with zero gaps, `computeNewUpperLimit(ub, 0, 0)` on a
non-integral objective returns a value strictly below `ub - feastol/2`;
on an integral objective with scale `s` it returns `k/s + feastol` for some
integer `k` (the code adds the feasibility tolerance back after the
integral rounding, so the result itself is in general not of the form
`k/s`). -/
theorem computeNewUpperLimit_zero_gaps (cfg : Cfg) (ub : ℚ)
    (hft : 0 < cfg.feastol) :
    (cfg.objIntegral = false →
      computeNewUpperLimit cfg ub 0 0 < ub - cfg.feastol / 2) ∧
    (cfg.objIntegral = true →
      ∃ k : ℤ, computeNewUpperLimit cfg ub 0 0 =
        (k : ℚ) / cfg.objScale + cfg.feastol) := by
  constructor
  · intro h
    have h₁ : min (ub - cfg.feastol) (cfg.nextafterDown ub) ≤
        ub - cfg.feastol := min_le_left _ _
    have h₂ : computeNewUpperLimit cfg ub 0 0 =
        min (ub - cfg.feastol) (cfg.nextafterDown ub) := by
      simp [computeNewUpperLimit, h]
    rw [h₂]
    linarith
  · intro h
    refine ⟨⌊cfg.objScale * ub - 1/2⌋, ?_⟩
    simp [computeNewUpperLimit, h]

/-- C3 witness: the theorem applied at the concrete non-integral
configuration `cfg₁` and `ub = 10`. -/
theorem computeNewUpperLimit_zero_gaps_witness :
    0 < cfg₁.feastol ∧
    computeNewUpperLimit cfg₁ 10 0 0 < 10 - cfg₁.feastol / 2 :=
  ⟨by norm_num [cfg₁, cfg₀],
   (computeNewUpperLimit_zero_gaps cfg₁ 10
      (by norm_num [cfg₁, cfg₀])).1 (by rfl)⟩

/-- C3 counterexample: on the integral-objective configuration `cfg₀`
(scale 1, `feastol = 1e-6`) and `ub = 10`, the returned value
`9 + 1e-6` is not expressible as `k / scale` for any integer `k`, contrary
to the claim. -/
theorem computeNewUpperLimit_integral_not_scaled :
    ¬ ∃ k : ℤ, computeNewUpperLimit cfg₀ 10 0 0 =
      (k : ℚ) / cfg₀.objScale := by
  rintro ⟨k, hk⟩
  have hval : computeNewUpperLimit cfg₀ 10 0 0 = 9000001/1000000 := by
    norm_num [computeNewUpperLimit, cfg₀]
  have hscale : cfg₀.objScale = 1 := rfl
  rw [hval, hscale, div_one] at hk
  have hden := congrArg Rat.den hk
  simp only [Rat.den_intCast] at hden
  norm_num at hden

/-! ### C10: dimension guard -/

/-- C10: a candidate whose length differs from the model's column count is
rejected by `solutionColFeasible` (the guard precedes any element access,
so the vector is never read), hence `checkSolution` and `trySolution`
reject it, and `trySolution` returns with the solve state unchanged (no
incumbent or bound is modified). -/
theorem dimension_guard (cfg : Cfg) (m : MipModel) (s : SolveState)
    (sol : List ℚ) (tOracle : TransformOracle) (ext : IncExt)
    (h : sol.length ≠ m.num_col) :
    solutionColFeasible m cfg.feastol sol = none ∧
    checkSolution m cfg.feastol sol = false ∧
    trySolution cfg m s sol tOracle ext = (false, s) := by
  have hcol : solutionColFeasible m cfg.feastol sol = none := by
    simp [solutionColFeasible, h]
  exact ⟨hcol, by simp [checkSolution, hcol], by simp [trySolution, hcol]⟩

/-- A one-column model for the dimension-guard witness. -/
def model₁ : MipModel :=
  { num_col := 1
    col_lower := [0]
    col_upper := [10]
    col_cost := [1]
    integrality := [true]
    num_row := 0
    row_lower := []
    row_upper := []
    rowEntries := [] }

/-- C10 witness: the empty vector against the one-column model. -/
theorem dimension_guard_witness :
    ([] : List ℚ).length ≠ model₁.num_col ∧
    trySolution cfg₀ model₁ state₀ [] tOracle₀ ext₀ = (false, state₀) :=
  ⟨by decide,
   (dimension_guard cfg₀ model₁ state₀ [] tOracle₀ ext₀ (by decide)).2.2⟩

/-! ### C8: bounded repair -/

/-- C8: the repair loop of `transformNewIntegerFeasibleSolution` performs
at most two violation-check passes and at most one repair attempt, for
every input; in particular it always terminates (it is a total
function). -/
theorem transformLoop_bounded (tol : ℚ) (o : TransformOracle) :
    (transformLoop tol o).2.1 ≤ 2 ∧ (transformLoop tol o).2.2 ≤ 1 := by
  unfold transformLoop transformPassFinal
  split
  · simp
  · split <;> simp

/-! ### C4: infeasible-fallback storage -/

/-- C4: when the violations still exceed the feasibility tolerance after
the one repair attempt, `transformNewIntegerFeasibleSolution` (called with
`possibly_store_as_new_incumbent = true`) returns `+inf` — so the result is
never used for bounding — and stores the candidate (with its violations
and objective) exactly when no feasible incumbent solution currently
exists. -/
theorem infeasible_fallback (cfg : Cfg) (s : SolveState)
    (o : TransformOracle)
    (hinf : violFeasible cfg.feastol (transformLoop cfg.feastol o).1.viol =
      false) :
    (transformNewIntegerFeasibleSolution cfg s true o).1 = ER.pinf ∧
    (feasibleIncumbentExists cfg s = true →
      (transformNewIntegerFeasibleSolution cfg s true o).2 = s) ∧
    (feasibleIncumbentExists cfg s = false →
      (transformNewIntegerFeasibleSolution cfg s true o).2 =
        { s with
            sol_bound_violation := (transformLoop cfg.feastol o).1.viol.bound
            sol_integrality_violation :=
              (transformLoop cfg.feastol o).1.viol.integrality
            sol_row_violation := (transformLoop cfg.feastol o).1.viol.row
            sol_stored := (transformLoop cfg.feastol o).1.colValue
            sol_objective :=
              ER.fin (transformLoop cfg.feastol o).1.objVal }) := by
  unfold transformNewIntegerFeasibleSolution
  simp only [hinf, if_true, Bool.false_eq_true, if_false]
  refine ⟨?_, ?_, ?_⟩
  · split_ifs <;> rfl
  · intro hcur; simp [hcur]
  · intro hcur; simp [hcur]

/-- C4 witness: the violated oracle `tOracleBad` against the empty state
(no feasible incumbent): the candidate is stored as fallback and the
returned objective is `+inf`. -/
theorem infeasible_fallback_witness :
    violFeasible cfg₀.feastol (transformLoop cfg₀.feastol tOracleBad).1.viol
      = false ∧
    (transformNewIntegerFeasibleSolution cfg₀ state₀ true tOracleBad).1 =
      ER.pinf := by
  have h : violFeasible cfg₀.feastol
      (transformLoop cfg₀.feastol tOracleBad).1.viol = false := by
    norm_num [violFeasible, transformLoop, tOracleBad, cfg₀]
  exact ⟨h, (infeasible_fallback cfg₀ state₀ tOracleBad h).1⟩

/-! ### C2: monotonicity of the incumbent bound -/

/-- C2: every `addIncumbent` call that returns `true` and stores its
candidate as the bounding incumbent (the minimization-sense storing branch
`upper_bound = solobj; incumbent = sol`) leaves `upper_bound` no larger
than before the call; quantifying over all states, this holds at each such
call of every ordered call sequence. -/
theorem addIncumbent_upper_bound_monotone (cfg : Cfg) (s : SolveState)
    (sol : List ℚ) (solobj : ℚ) (t : TransformOracle) (ext : IncExt)
    (h : storesAsBoundingIncumbent cfg s solobj t = true) :
    (addIncumbent cfg s sol solobj t ext).1 = true ∧
    ER.ble (addIncumbent cfg s sol solobj t ext).2.upper_bound
      s.upper_bound = true := by
  unfold storesAsBoundingIncumbent at h
  simp only [Bool.and_eq_true, Bool.not_eq_true'] at h
  obtain ⟨hps, hlt⟩ := h
  rw [hps] at hlt
  have hub := (transform_snd_fields cfg s true t).2.1
  have hble : ER.ble (transformNewIntegerFeasibleSolution cfg s true t).1
      s.upper_bound = true := ER.ble_of_not_ble hlt
  unfold addIncumbent
  rw [hps]
  simp only [Bool.true_or, if_true, hub, hlt, Bool.false_eq_true, if_false]
  split_ifs <;> simpa using hble

/-- C2 witness: from upper bound `10`, an incumbent with transformed
objective `7` is stored and the upper bound does not increase. -/
theorem addIncumbent_upper_bound_monotone_witness :
    storesAsBoundingIncumbent cfg₀ { state₀ with upper_bound := ER.fin 10 }
      7 tOracle₀ = true ∧
    ER.ble (addIncumbent cfg₀ { state₀ with upper_bound := ER.fin 10 }
      [7] 7 tOracle₀ ext₀).2.upper_bound (ER.fin 10) = true := by
  have h : storesAsBoundingIncumbent cfg₀
      { state₀ with upper_bound := ER.fin 10 } 7 tOracle₀ = true := by
    simp only [storesAsBoundingIncumbent, transformNewIntegerFeasibleSolution,
      violFeasible, transformLoop, tOracle₀, cfg₀, state₀]
    norm_num [ER.blt, ER.ble]
    simp
    norm_num
  exact ⟨h,
    (addIncumbent_upper_bound_monotone cfg₀
      { state₀ with upper_bound := ER.fin 10 } [7] 7 tOracle₀ ext₀ h).2⟩

/-! ### C5: unbounded classification -/

/-- A root-LP iteration oracle whose resolve reports unbounded. -/
def itUnbounded : RootIter :=
  { domainInfeasible := false
    changedCols := true
    lpNotset := false
    resolveStatus := LpStatus.kUnbounded
    prevStatus := LpStatus.kNotset
    fracIntsEmpty := false
    lpSolution := []
    lpObjective := 0
    tOracle := tOracle₀
    incExt := ext₀
    dualFeasible := false
    changedColsEmptyAtEnd := true }

/-- A state holding an infeasible fallback solution: `mipsolver.solution_`
is non-empty (stored by the fallback branch of
`transformNewIntegerFeasibleSolution`) but its stored bound violation
exceeds the feasibility tolerance, so no feasible integer solution is
known. -/
def stateFallback : SolveState :=
  { state₀ with
      sol_stored := [5]
      sol_objective := ER.fin 5
      sol_bound_violation := 1 }

/-- C5 counterexample: at `stateFallback` (a non-empty but infeasible
stored solution, exactly what the fallback storage produces) an unbounded
root LP resolve sets the model status to `kUnbounded`, although no feasible
integer solution is known — the claim would require
`kUnboundedOrInfeasible`.  The code tests `mipsolver.solution_.empty()`
(line 1357), not feasibility. -/
theorem rootLp_unbounded_claim_false :
    ¬ ((rootLpStep cfg₀ stateFallback itUnbounded).2.modelstatus =
        (if feasibleIncumbentExists cfg₀ stateFallback = true then
          ModelStatus.kUnbounded
        else ModelStatus.kUnboundedOrInfeasible)) := by
  have hfeas : feasibleIncumbentExists cfg₀ stateFallback = false := by
    norm_num [feasibleIncumbentExists, stateFallback, state₀, cfg₀]
  have hstep : (rootLpStep cfg₀ stateFallback itUnbounded).2.modelstatus =
      ModelStatus.kUnbounded := by
    simp [rootLpStep, itUnbounded, stateFallback, state₀]
  rw [hstep, hfeas]
  simp

/-- C5 (amended): whenever the root LP resolve reports unbounded,
`evaluateRootLp` terminates (remaining iterations are discarded) and sets
the model status to unbounded if any solution vector is currently stored —
which may be an infeasible fallback — and to unbounded-or-infeasible when
no solution at all is stored. -/
theorem rootLp_unbounded_classification (cfg : Cfg) (s : SolveState)
    (it : RootIter) (rest : List RootIter)
    (h₁ : it.domainInfeasible = false)
    (h₂ : (it.changedCols || it.lpNotset) = true)
    (h₃ : it.resolveStatus = LpStatus.kUnbounded) :
    evaluateRootLp cfg s (it :: rest) =
      (some LpStatus.kUnbounded,
        { s with
            modelstatus :=
              if s.sol_stored = [] then ModelStatus.kUnboundedOrInfeasible
              else ModelStatus.kUnbounded
            pruned_treeweight := 1
            num_nodes := s.num_nodes + 1
            num_leaves := s.num_leaves + 1 }) := by
  have hstep : rootLpStep cfg s it =
      (some LpStatus.kUnbounded,
        { s with
            modelstatus :=
              if s.sol_stored = [] then ModelStatus.kUnboundedOrInfeasible
              else ModelStatus.kUnbounded
            pruned_treeweight := 1
            num_nodes := s.num_nodes + 1
            num_leaves := s.num_leaves + 1 }) := by
    unfold rootLpStep
    simp [h₁, h₂, h₃]
  unfold evaluateRootLp
  rw [hstep]

/-- C5 witness: the amended theorem applied at `state₀` (nothing stored):
the status becomes unbounded-or-infeasible and the loop terminates. -/
theorem rootLp_unbounded_classification_witness :
    itUnbounded.domainInfeasible = false ∧
    (evaluateRootLp cfg₀ state₀ [itUnbounded]).2.modelstatus =
      ModelStatus.kUnboundedOrInfeasible ∧
    (evaluateRootLp cfg₀ state₀ [itUnbounded]).1 =
      some LpStatus.kUnbounded := by
  have h := rootLp_unbounded_classification cfg₀ state₀ itUnbounded []
    rfl rfl rfl
  refine ⟨rfl, ?_, ?_⟩
  · rw [h]; simp [state₀]
  · rw [h]

/-! ### Operations of the solve as events -/

/-- One bound-state-mutating operation of the solve: an `addIncumbent` call
(with its candidate, objective and external oracles) or one iteration of
the `evaluateRootLp` loop. -/
inductive Ev where
  | inc : List ℚ → ℚ → TransformOracle → IncExt → Ev
  | rootIter : RootIter → Ev

/-- Apply one operation to the solve state. -/
def applyEv (cfg : Cfg) (s : SolveState) : Ev → SolveState
  | Ev.inc sol solobj t ext => (addIncumbent cfg s sol solobj t ext).2
  | Ev.rootIter it => (rootLpStep cfg s it).2

/-- The external node-queue bounding delta carried by an operation
(`nodequeue.performBounding` result). -/
def evBoundingDelta : Ev → ℚ
  | Ev.inc _ _ _ ext => ext.boundingDelta
  | Ev.rootIter it => it.incExt.boundingDelta

/-- Apply a sequence of operations. -/
def applyTrace (cfg : Cfg) (s : SolveState) : List Ev → SolveState
  | [] => s
  | e :: rest => applyTrace cfg (applyEv cfg s e) rest

/-! ### Treeweight case analyses -/

theorem addIncumbent_treeweight (cfg : Cfg) (s : SolveState) (sol : List ℚ)
    (solobj : ℚ) (t : TransformOracle) (ext : IncExt) :
    (addIncumbent cfg s sol solobj t ext).2.pruned_treeweight =
        s.pruned_treeweight ∨
    (addIncumbent cfg s sol solobj t ext).2.pruned_treeweight = 1 ∨
    (addIncumbent cfg s sol solobj t ext).2.pruned_treeweight =
        s.pruned_treeweight + ext.boundingDelta := by
  have htw := fun p =>
    (transform_snd_fields cfg s p t).2.2.2.2.1
  unfold addIncumbent
  cases hps : ER.blt (ER.fin solobj) s.upper_bound
  · simp only [hps, Bool.false_eq_true, false_or, if_false]
    repeat' split
    all_goals simp [htw]
  · simp only [hps, eq_self_iff_true, true_or, if_true]
    repeat' split
    all_goals simp [htw]

theorem rootLpStep_treeweight (cfg : Cfg) (s : SolveState) (it : RootIter) :
    (rootLpStep cfg s it).2.pruned_treeweight = s.pruned_treeweight ∨
    (rootLpStep cfg s it).2.pruned_treeweight = 1 ∨
    (rootLpStep cfg s it).2.pruned_treeweight =
        s.pruned_treeweight + it.incExt.boundingDelta := by
  have hinc := addIncumbent_treeweight cfg s it.lpSolution it.lpObjective
    it.tOracle it.incExt
  unfold rootLpStep
  cases hdom : it.domainInfeasible
  · cases hres : (it.changedCols || it.lpNotset)
    · simp only [hdom, hres, Bool.false_eq_true, if_false, Bool.false_and]
      repeat' split
      all_goals simp
    · simp only [hdom, hres, Bool.false_eq_true, if_false, Bool.true_and,
        eq_self_iff_true, if_true]
      repeat' split
      all_goals rcases hinc with h | h | h <;> simp [h]
  · simp [hdom]

/-! ### C7: pruned treeweight -/

/-- C7 counterexample: `performRestart` resets `pruned_treeweight` to `0`
(line 983), so from a state with `pruned_treeweight = 1` the restart
operation strictly decreases it, contradicting the claimed monotone
non-decrease across every operation including restart. -/
theorem pruned_treeweight_restart_decreases :
    ¬ ({ state₀ with pruned_treeweight := 1 } : SolveState).pruned_treeweight
        ≤ (performRestartCore cfg₀
            { state₀ with pruned_treeweight := 1 }).pruned_treeweight := by
  norm_num [performRestartCore, state₀]

/-- C7 (amended): under the node-queue contract for `performBounding`
(the returned pruned weight is nonnegative and never overshoots the
remaining weight), `pruned_treeweight` stays in `[0, 1]` and is
non-decreasing across every incumbent-acceptance and root-LP-evaluation
operation; `performRestart`, however, resets it to `0` (which is again in
`[0, 1]`) rather than preserving monotonicity. -/
theorem pruned_treeweight_bounds :
    (∀ (cfg : Cfg) (s : SolveState) (e : Ev),
      0 ≤ s.pruned_treeweight → s.pruned_treeweight ≤ 1 →
      0 ≤ evBoundingDelta e →
      s.pruned_treeweight + evBoundingDelta e ≤ 1 →
      0 ≤ (applyEv cfg s e).pruned_treeweight ∧
      (applyEv cfg s e).pruned_treeweight ≤ 1 ∧
      s.pruned_treeweight ≤ (applyEv cfg s e).pruned_treeweight) ∧
    (∀ (cfg : Cfg) (s : SolveState),
      (performRestartCore cfg s).pruned_treeweight = 0) := by
  constructor
  · intro cfg s e h0 h1 hd hs
    have hcases :
        (applyEv cfg s e).pruned_treeweight = s.pruned_treeweight ∨
        (applyEv cfg s e).pruned_treeweight = 1 ∨
        (applyEv cfg s e).pruned_treeweight =
          s.pruned_treeweight + evBoundingDelta e := by
      cases e with
      | inc sol solobj t ext =>
          simpa [applyEv, evBoundingDelta] using
            addIncumbent_treeweight cfg s sol solobj t ext
      | rootIter it =>
          simpa [applyEv, evBoundingDelta] using
            rootLpStep_treeweight cfg s it
    rcases hcases with h | h | h <;> rw [h] <;>
      refine ⟨by linarith, by linarith, by linarith⟩
  · intro cfg s
    rfl

/-- A state with treeweight `1/4` and a finite upper bound. -/
def stateQuarter : SolveState :=
  { state₀ with pruned_treeweight := 1/4, upper_bound := ER.fin 10 }

/-- An external-effects oracle with bounding delta `1/2`. -/
def extHalf : IncExt := { ext₀ with boundingDelta := 1/2 }

/-- C7 witness: the amended theorem applied at a concrete improving
incumbent event with bounding delta `1/2` from treeweight `1/4`. -/
theorem pruned_treeweight_bounds_witness :
    (0 : ℚ) ≤ (applyEv cfg₀ stateQuarter
      (Ev.inc [7] 7 tOracle₀ extHalf)).pruned_treeweight ∧
    (applyEv cfg₀ stateQuarter
      (Ev.inc [7] 7 tOracle₀ extHalf)).pruned_treeweight ≤ 1 ∧
    stateQuarter.pruned_treeweight ≤ (applyEv cfg₀ stateQuarter
      (Ev.inc [7] 7 tOracle₀ extHalf)).pruned_treeweight :=
  pruned_treeweight_bounds.1 cfg₀ stateQuarter
    (Ev.inc [7] 7 tOracle₀ extHalf)
    (by norm_num [stateQuarter, state₀])
    (by norm_num [stateQuarter, state₀])
    (by norm_num [evBoundingDelta, extHalf, ext₀])
    (by norm_num [evBoundingDelta, extHalf, ext₀, stateQuarter, state₀])

/-! ### C9: displayed-gap formula -/

/-- C9: for a finite upper bound (minimization, default
`objective_bound = inf`), `limitsToBounds` snaps the offset-adjusted
bounds within `epsilon` of zero to exactly zero, reports exactly the
snapped primal bound and the snapped-and-clamped dual bound, and the gap
is `100 * (primal - dual) / |primal|` whenever the primal bound is
nonzero (`+inf` when the dual bound is `-inf`), `0` when both are zero,
and `+inf` when the primal bound is zero and the dual bound is not; for
the maximization sense both reported bounds are sign-flipped and the gap
is unchanged. -/
theorem limitsToBounds_gap_formula (cfg : Cfg) (s : SolveState) (u : ℚ)
    (hub : s.upper_bound = ER.fin u)
    (hob : cfg.objective_bound = ER.pinf)
    (hmin : cfg.sense = Sense.kMinimize) :
    (∀ q : ℚ, snapQ cfg.epsilon q = if |q| ≤ cfg.epsilon then 0 else q) ∧
    limitsToBounds cfg s =
      (ER.emin ((s.lower_bound.addQ cfg.offset).snap cfg.epsilon)
         (ER.fin (snapQ cfg.epsilon (u + cfg.offset))),
       ER.fin (snapQ cfg.epsilon (u + cfg.offset)),
       gapOf (snapQ cfg.epsilon (u + cfg.offset))
         (ER.emin ((s.lower_bound.addQ cfg.offset).snap cfg.epsilon)
            (ER.fin (snapQ cfg.epsilon (u + cfg.offset))))) ∧
    (∀ p : ℚ, ∀ d : ER, p ≠ 0 →
      (∀ dq : ℚ, d = ER.fin dq →
        gapOf p d = ER.fin (100 * (p - dq) / |p|)) ∧
      (d = ER.ninf → gapOf p d = ER.pinf)) ∧
    (∀ d : ER, gapOf 0 d = if d = ER.fin 0 then ER.fin 0 else ER.pinf) ∧
    limitsToBounds { cfg with sense := Sense.kMaximize } s =
      ((limitsToBounds cfg s).1.eneg, (limitsToBounds cfg s).2.1.eneg,
       (limitsToBounds cfg s).2.2) := by
  have hfin : s.upper_bound ≠ ER.pinf := by rw [hub]; simp
  refine ⟨fun q => rfl, ?_, ?_, ?_, ?_⟩
  · unfold limitsToBounds
    simp [hfin, hmin, hob, hub, ER.addQ, ER.snap]
  · intro p d hp
    constructor
    · intro dq hd
      simp [gapOf, hp, hd]
    · intro hd
      simp [gapOf, hp, hd]
  · intro d
    simp [gapOf]
  · unfold limitsToBounds
    simp [hfin, hmin, hob, hub, ER.addQ, ER.snap]

/-- A state with finite bounds for the display witness. -/
def stateBounds : SolveState :=
  { state₀ with lower_bound := ER.fin 5, upper_bound := ER.fin 10 }

/-- C9 witness: the theorem applied at lower bound 5 and upper bound 10
with zero offset: the reported bounds are 5 and 10 and the gap is
`100 * (10 - 5) / 10 = 50` percent. -/
theorem limitsToBounds_gap_formula_witness :
    stateBounds.upper_bound = ER.fin 10 ∧
    cfg₀.objective_bound = ER.pinf ∧
    cfg₀.sense = Sense.kMinimize ∧
    limitsToBounds cfg₀ stateBounds =
      (ER.emin ((stateBounds.lower_bound.addQ cfg₀.offset).snap cfg₀.epsilon)
         (ER.fin (snapQ cfg₀.epsilon (10 + cfg₀.offset))),
       ER.fin (snapQ cfg₀.epsilon (10 + cfg₀.offset)),
       gapOf (snapQ cfg₀.epsilon (10 + cfg₀.offset))
         (ER.emin ((stateBounds.lower_bound.addQ cfg₀.offset).snap
            cfg₀.epsilon)
            (ER.fin (snapQ cfg₀.epsilon (10 + cfg₀.offset))))) :=
  ⟨rfl, rfl, rfl,
   (limitsToBounds_gap_formula cfg₀ stateBounds 10 rfl rfl rfl).2.1⟩

/-! ### C6: limit checking -/

theorem limitConds_status_ne (cfg : Cfg) (s : SolveState)
    (probe : LimitProbe) (off : ℤ) :
    ∀ c ∈ limitConds cfg s probe off, c.2 ≠ ModelStatus.kNotset := by
  intro c hc
  fin_cases hc <;> simp

theorem setIfNotset_ne (cur new : ModelStatus)
    (h : new ≠ ModelStatus.kNotset) :
    setIfNotset cur new ≠ ModelStatus.kNotset := by
  unfold setIfNotset
  split_ifs <;> simp_all

theorem setIfNotset_of_ne (cur new : ModelStatus)
    (h : cur ≠ ModelStatus.kNotset) : setIfNotset cur new = cur :=
  if_neg h

theorem checkLimits_eq_find (cfg : Cfg) (s : SolveState)
    (probe : LimitProbe) (off : ℤ) :
    checkLimits cfg s probe off =
      match (limitConds cfg s probe off).find? Prod.fst with
      | some c => (true, setIfNotset s.modelstatus c.2)
      | none => (false, s.modelstatus) := by
  unfold checkLimits limitConds
  cases h1 : (!cfg.submip && cfg.userCallbackPresent && probe.interrupt) <;>
  cases h2 : objectiveTargetReached cfg s <;>
  cases h3 : intLimitHit cfg.mip_max_nodes (s.num_nodes + off) <;>
  cases h4 : intLimitHit cfg.mip_max_leaves s.num_leaves <;>
  cases h5 : intLimitHit cfg.mip_max_improving_sols s.numImprovingSols <;>
  cases h6 : ER.ble cfg.time_limit (ER.fin probe.timeRead) <;>
  simp [h1, h2, h3, h4, h5, h6, List.find?]

/-- C6: `checkLimits` evaluates the six stop conditions in the fixed order
interrupt, objective target, node count, leaf count, improving-solution
count, wall-clock time — its result equals the first hit of the ordered
condition list, with the terminal status written only while it is still
`kNotset` — the status is never altered once set; and after a call that
reported stop, any later call at the resulting status that has some stop
condition true again reports stop without altering the status value. -/
theorem checkLimits_order_and_write_once (cfg : Cfg) (s : SolveState)
    (probe : LimitProbe) (off : ℤ) :
    (checkLimits cfg s probe off =
      match (limitConds cfg s probe off).find? Prod.fst with
      | some c => (true, setIfNotset s.modelstatus c.2)
      | none => (false, s.modelstatus)) ∧
    (s.modelstatus ≠ ModelStatus.kNotset →
      (checkLimits cfg s probe off).2 = s.modelstatus) ∧
    ((checkLimits cfg s probe off).1 = true →
      ∀ (s' : SolveState) (probe' : LimitProbe) (off' : ℤ),
        s'.modelstatus = (checkLimits cfg s probe off).2 →
        (limitConds cfg s' probe' off').any Prod.fst = true →
        checkLimits cfg s' probe' off' = (true, s'.modelstatus)) := by
  have hA := checkLimits_eq_find cfg s probe off
  refine ⟨hA, ?_, ?_⟩
  · intro hne
    rw [hA]
    cases hfind : (limitConds cfg s probe off).find? Prod.fst with
    | none => rfl
    | some c => simp [setIfNotset_of_ne _ _ hne]
  · intro htrue s' probe' off' hst hany
    -- after a true-returning call the status is no longer kNotset
    have hne : (checkLimits cfg s probe off).2 ≠ ModelStatus.kNotset := by
      rw [hA]
      cases hfind : (limitConds cfg s probe off).find? Prod.fst with
      | none =>
          rw [hA, hfind] at htrue
          simp at htrue
      | some c =>
          have hmem := List.find?_some hfind
          have hmem' := List.mem_of_find?_eq_some hfind
          have := limitConds_status_ne cfg s probe off c hmem'
          simpa using setIfNotset_ne _ _ this
    have hne' : s'.modelstatus ≠ ModelStatus.kNotset := hst ▸ hne
    have hA' := checkLimits_eq_find cfg s' probe' off'
    obtain ⟨c, hcmem, hcp⟩ := List.any_eq_true.mp hany
    have hsome : ((limitConds cfg s' probe' off').find? Prod.fst).isSome :=
      List.find?_isSome.mpr ⟨c, hcmem, hcp⟩
    obtain ⟨c', hc'⟩ := Option.isSome_iff_exists.mp hsome
    rw [hA', hc']
    simp [setIfNotset_of_ne _ _ hne']

/-- A configuration with a node limit of 0. -/
def cfgNode : Cfg := { cfg₀ with mip_max_nodes := some 0 }

/-- C6 witness: with a node limit of 0 hit, the first call stops with
status `kSolutionLimit`, and a second call from that status still stops
and leaves the status unchanged. -/
theorem checkLimits_order_and_write_once_witness :
    checkLimits cfgNode state₀ { interrupt := false, timeRead := 0 } 0 =
      (true, ModelStatus.kSolutionLimit) ∧
    checkLimits cfgNode
      { state₀ with modelstatus := ModelStatus.kSolutionLimit }
      { interrupt := false, timeRead := 0 } 0 =
      (true, ModelStatus.kSolutionLimit) := by
  have h1 : checkLimits cfgNode state₀
      { interrupt := false, timeRead := 0 } 0 =
      (true, ModelStatus.kSolutionLimit) := by
    rw [(checkLimits_order_and_write_once cfgNode state₀
      { interrupt := false, timeRead := 0 } 0).1]
    norm_num [limitConds, List.find?, objectiveTargetReached, intLimitHit,
      cfgNode, cfg₀, state₀, ER.blt, ER.ble, setIfNotset]
  refine ⟨h1, ?_⟩
  have h2 := (checkLimits_order_and_write_once cfgNode state₀
      { interrupt := false, timeRead := 0 } 0).2.2
      (by rw [h1]) { state₀ with modelstatus := ModelStatus.kSolutionLimit }
      { interrupt := false, timeRead := 0 } 0 (by rw [h1])
      (by norm_num [limitConds, List.any, objectiveTargetReached,
        intLimitHit, cfgNode, cfg₀, state₀, ER.blt, ER.ble])
  simpa using h2

/-! ### C1: bound consistency -/

theorem addIncumbent_lower_bound (cfg : Cfg) (s : SolveState)
    (sol : List ℚ) (solobj : ℚ) (t : TransformOracle) (ext : IncExt) :
    (addIncumbent cfg s sol solobj t ext).2.lower_bound = s.lower_bound := by
  have hlb := fun p => (transform_snd_fields cfg s p t).1
  unfold addIncumbent
  cases hps : ER.blt (ER.fin solobj) s.upper_bound
  · simp only [hps, Bool.false_eq_true, false_or, if_false]
    repeat' split
    all_goals simp [hlb]
  · simp only [hps, eq_self_iff_true, true_or, if_true]
    repeat' split
    all_goals simp [hlb]

theorem addIncumbent_upper_bound_cases (cfg : Cfg) (s : SolveState)
    (sol : List ℚ) (solobj : ℚ) (t : TransformOracle) (ext : IncExt) :
    (addIncumbent cfg s sol solobj t ext).2.upper_bound = s.upper_bound ∨
    (ER.blt (ER.fin solobj) s.upper_bound = true ∧
      (addIncumbent cfg s sol solobj t ext).2.upper_bound =
        (transformNewIntegerFeasibleSolution cfg s true t).1) := by
  have hub := fun p => (transform_snd_fields cfg s p t).2.1
  unfold addIncumbent
  cases hps : ER.blt (ER.fin solobj) s.upper_bound
  · simp only [hps, Bool.false_eq_true, false_or, if_false]
    left
    repeat' split
    all_goals simp [hub]
  · simp only [hps, eq_self_iff_true, true_or, true_and, if_true]
    repeat' split
    all_goals simp_all [hub]

/-- The adapter-soundness contract of one `addIncumbent` call against the
ghost optimal value `zstar` of the MIP in the transformed space: whenever
a transformation is requested for a possibly improving candidate, the
objective it reports is no better than the optimum (it is the objective of
a feasible solution when finite, and `+inf` in the infeasible-fallback
case). -/
def IncCallOK (cfg : Cfg) (zstar : ER) (s : SolveState) (solobj : ℚ)
    (t : TransformOracle) : Prop :=
  ER.blt (ER.fin solobj) s.upper_bound = true →
  ER.ble zstar (transformNewIntegerFeasibleSolution cfg s true t).1 = true

/-- The adapter-soundness contract of one operation against the ghost
optimal value `zstar`: stored objectives are at least `zstar`; dual-feasible
relaxation objectives are valid lower bounds up to the tolerance; a
propagation/LP infeasibility (under the installed cutoff) certifies that
the current upper bound is within tolerance of the optimum; an optimal
integral root solution that is accepted leaves an upper bound within
tolerance of the optimum. -/
def EvOK (cfg : Cfg) (zstar : ER) (s : SolveState) : Ev → Prop
  | Ev.inc _sol solobj t _ext => IncCallOK cfg zstar s solobj t
  | Ev.rootIter it =>
      (it.domainInfeasible = true →
        ER.ble s.upper_bound (zstar.addQ cfg.feastol) = true) ∧
      ((it.changedCols || it.lpNotset) = true →
        it.resolveStatus = LpStatus.kInfeasible →
        ER.ble s.upper_bound (zstar.addQ cfg.feastol) = true) ∧
      ((it.changedCols || it.lpNotset) = false →
        it.prevStatus = LpStatus.kInfeasible →
        ER.ble s.upper_bound (zstar.addQ cfg.feastol) = true) ∧
      (it.dualFeasible = true →
        ER.ble (ER.fin it.lpObjective) (zstar.addQ cfg.feastol) = true) ∧
      IncCallOK cfg zstar s it.lpObjective it.tOracle ∧
      ((it.changedCols || it.lpNotset) = true →
        it.resolveStatus = LpStatus.kOptimal →
        it.fracIntsEmpty = true →
        (addIncumbent cfg s it.lpSolution it.lpObjective it.tOracle
          it.incExt).1 = true →
        ER.ble (addIncumbent cfg s it.lpSolution it.lpObjective it.tOracle
          it.incExt).2.upper_bound (zstar.addQ cfg.feastol) = true)

/-- The inductive bound invariant: the lower bound is a valid dual bound up
to the tolerance and the upper bound is no better than the optimum. -/
def BoundInv (cfg : Cfg) (zstar : ER) (s : SolveState) : Prop :=
  ER.ble s.lower_bound (zstar.addQ cfg.feastol) = true ∧
  ER.ble zstar s.upper_bound = true

theorem addIncumbent_boundInv (cfg : Cfg) (zstar : ER) (s : SolveState)
    (sol : List ℚ) (solobj : ℚ) (t : TransformOracle) (ext : IncExt)
    (hOK : IncCallOK cfg zstar s solobj t) (hInv : BoundInv cfg zstar s) :
    BoundInv cfg zstar (addIncumbent cfg s sol solobj t ext).2 := by
  obtain ⟨hlb, hub⟩ := hInv
  constructor
  · rw [addIncumbent_lower_bound]
    exact hlb
  · rcases addIncumbent_upper_bound_cases cfg s sol solobj t ext with
      h | ⟨hps, h⟩
    · rw [h]; exact hub
    · rw [h]; exact hOK hps

theorem rootLpStep_boundInv (cfg : Cfg) (zstar : ER) (s : SolveState)
    (it : RootIter) (hOK : EvOK cfg zstar s (Ev.rootIter it))
    (hInv : BoundInv cfg zstar s) :
    BoundInv cfg zstar (rootLpStep cfg s it).2 := by
  obtain ⟨h1, h2, h3, h4, h5, h6⟩ := hOK
  have hIncInv := addIncumbent_boundInv cfg zstar s it.lpSolution
    it.lpObjective it.tOracle it.incExt h5 hInv
  obtain ⟨hlb, hub⟩ := hInv
  unfold rootLpStep
  cases hdom : it.domainInfeasible
  case true =>
    simp only [hdom, eq_self_iff_true, if_true]
    exact ⟨by simpa using h1 hdom, hub⟩
  case false =>
    simp only [hdom, Bool.false_eq_true, if_false]
    cases hres : (it.changedCols || it.lpNotset)
    case false =>
      simp only [hres, Bool.false_eq_true, if_false, Bool.false_and]
      by_cases hinf : it.prevStatus = LpStatus.kInfeasible
      · simp only [hinf, eq_self_iff_true, if_true]
        exact ⟨by simpa using h3 hres hinf, hub⟩
      · simp only [if_neg hinf]
        cases hdf : it.dualFeasible
        · simp only [hdf, Bool.false_eq_true, if_false]
          split_ifs <;> exact ⟨hlb, hub⟩
        · simp only [hdf, eq_self_iff_true, if_true]
          have hlb' : ER.ble (ER.emax (ER.fin it.lpObjective) s.lower_bound)
              (zstar.addQ cfg.feastol) = true := ER.ble_emax (h4 hdf) hlb
          split_ifs <;> exact ⟨hlb', hub⟩
    case true =>
      simp only [hres, eq_self_iff_true, if_true, Bool.true_and]
      cases hunb : decide (it.resolveStatus = LpStatus.kUnbounded)
      case true =>
        simp only [hunb, eq_self_iff_true, if_true]
        exact ⟨hlb, hub⟩
      case false =>
        simp only [hunb, Bool.false_eq_true, if_false]
        cases hof : (decide (it.resolveStatus = LpStatus.kOptimal) &&
            it.fracIntsEmpty)
        case false =>
          simp only [hof, Bool.false_eq_true, if_false, Bool.false_and]
          by_cases hinf : it.resolveStatus = LpStatus.kInfeasible
          · simp only [hinf, eq_self_iff_true, if_true]
            exact ⟨by simpa using h2 hres hinf, hub⟩
          · simp only [if_neg hinf]
            cases hdf : it.dualFeasible
            · simp only [hdf, Bool.false_eq_true, if_false]
              split_ifs <;> exact ⟨hlb, hub⟩
            · simp only [hdf, eq_self_iff_true, if_true]
              have hlb' : ER.ble
                  (ER.emax (ER.fin it.lpObjective) s.lower_bound)
                  (zstar.addQ cfg.feastol) = true :=
                ER.ble_emax (h4 hdf) hlb
              split_ifs <;> exact ⟨hlb', hub⟩
        case true =>
          obtain ⟨hopt', hfrac⟩ : decide (it.resolveStatus = LpStatus.kOptimal) = true ∧ it.fracIntsEmpty = true := by simpa using hof
          have hopt := of_decide_eq_true hopt'
          simp only [hof, eq_self_iff_true, if_true, Bool.true_and]
          cases hinc1 : (addIncumbent cfg s it.lpSolution it.lpObjective
              it.tOracle it.incExt).1
          case true =>
            simp only [hinc1, eq_self_iff_true, if_true]
            exact ⟨h6 hres hopt hfrac hinc1, hIncInv.2⟩
          case false =>
            simp only [hinc1, Bool.false_eq_true, if_false]
            have hinf : ¬ it.resolveStatus = LpStatus.kInfeasible := by
              rw [hopt]; simp
            simp only [if_neg hinf]
            cases hdf : it.dualFeasible
            · simp only [hdf, Bool.false_eq_true, if_false]
              split_ifs <;> exact ⟨hIncInv.1, hIncInv.2⟩
            · simp only [hdf, eq_self_iff_true, if_true]
              have hlb' : ER.ble
                  (ER.emax (ER.fin it.lpObjective)
                    (addIncumbent cfg s it.lpSolution it.lpObjective
                      it.tOracle it.incExt).2.lower_bound)
                  (zstar.addQ cfg.feastol) = true :=
                ER.ble_emax (h4 hdf) hIncInv.1
              split_ifs <;> exact ⟨hlb', hIncInv.2⟩

theorem applyEv_boundInv (cfg : Cfg) (zstar : ER) (s : SolveState) (e : Ev)
    (hOK : EvOK cfg zstar s e) (hInv : BoundInv cfg zstar s) :
    BoundInv cfg zstar (applyEv cfg s e) := by
  cases e with
  | inc sol solobj t ext =>
      exact addIncumbent_boundInv cfg zstar s sol solobj t ext hOK hInv
  | rootIter it => exact rootLpStep_boundInv cfg zstar s it hOK hInv

/-- A trace of operations each of which satisfies the adapter-soundness
contract at the state where it executes. -/
inductive Sound (cfg : Cfg) (zstar : ER) : SolveState → List Ev → Prop
  | nil (s : SolveState) : Sound cfg zstar s []
  | cons (s : SolveState) (e : Ev) (rest : List Ev) :
      EvOK cfg zstar s e → Sound cfg zstar (applyEv cfg s e) rest →
      Sound cfg zstar s (e :: rest)

theorem sound_boundInv (cfg : Cfg) (zstar : ER) :
    ∀ (evs : List Ev) (s : SolveState), Sound cfg zstar s evs →
      BoundInv cfg zstar s → BoundInv cfg zstar (applyTrace cfg s evs)
  | [], _, _, hInv => hInv
  | e :: rest, s, hsound, hInv => by
      cases hsound with
      | cons _ _ _ hOK hrest =>
          exact sound_boundInv cfg zstar rest (applyEv cfg s e) hrest
            (applyEv_boundInv cfg zstar s e hOK hInv)

/-- C1: for every sequence of `addIncumbent` calls and `evaluateRootLp`
iterations whose external collaborators are sound with respect to the
(ghost) optimal transformed objective `zstar` — stored candidate objectives
are ≥ `zstar`, dual-feasible LP objectives and infeasibility certificates
are valid up to the feasibility tolerance — the solve state keeps the
invariant that whenever both bounds are finite,
`lower_bound ≤ upper_bound + tolerance`; `addIncumbent` lowers
`upper_bound` only for strictly improving transformed objectives and
`evaluateRootLp` raises `lower_bound` only to dual-feasible LP objectives,
and the invariant is preserved at every step. -/
theorem bound_consistency_invariant (cfg : Cfg) (zstar : ER)
    (s : SolveState) (evs : List Ev) (hsound : Sound cfg zstar s evs)
    (hInv : BoundInv cfg zstar s) :
    BoundInv cfg zstar (applyTrace cfg s evs) ∧
    ∀ l u : ℚ, (applyTrace cfg s evs).lower_bound = ER.fin l →
      (applyTrace cfg s evs).upper_bound = ER.fin u →
      l ≤ u + cfg.feastol := by
  have hmain := sound_boundInv cfg zstar evs s hsound hInv
  refine ⟨hmain, ?_⟩
  intro l u hl hu
  obtain ⟨hlb, hub⟩ := hmain
  rw [hl] at hlb
  rw [hu] at hub
  cases zstar with
  | ninf => simp [ER.addQ, ER.ble] at hlb
  | pinf => simp [ER.ble] at hub
  | fin q =>
      simp only [ER.addQ, ER.ble_fin_fin, decide_eq_true_eq] at hlb hub
      linarith

/-- A root iteration whose resolve is optimal with fractional integers
remaining and a dual-feasible objective of 5. -/
def itDual : RootIter :=
  { itUnbounded with
      resolveStatus := LpStatus.kOptimal
      fracIntsEmpty := false
      dualFeasible := true
      lpObjective := 5 }

/-- C1 witness: a sound one-iteration trace (dual-feasible root LP with
objective 5, ghost optimum 6) from the initial state keeps the
invariant. -/
theorem bound_consistency_invariant_witness :
    BoundInv cfg₀ (ER.fin 6) (applyTrace cfg₀ state₀ [Ev.rootIter itDual]) ∧
    ∀ l u : ℚ,
      (applyTrace cfg₀ state₀ [Ev.rootIter itDual]).lower_bound =
        ER.fin l →
      (applyTrace cfg₀ state₀ [Ev.rootIter itDual]).upper_bound =
        ER.fin u →
      l ≤ u + cfg₀.feastol := by
  have hOK : EvOK cfg₀ (ER.fin 6) state₀ (Ev.rootIter itDual) := by
    refine ⟨?_, ?_, ?_, ?_, ?_, ?_⟩
    · intro h; simp [itDual, itUnbounded] at h
    · intro _ h; simp [itDual, itUnbounded] at h
    · intro h; simp [itDual, itUnbounded] at h
    · intro _
      norm_num [itDual, itUnbounded, cfg₀, state₀, ER.addQ, ER.ble]
    · intro _
      simp only [transformNewIntegerFeasibleSolution, transformLoop,
        violFeasible, tOracle₀, itDual, itUnbounded, cfg₀, state₀]
      norm_num [ER.ble]
      simp
      norm_num [ER.ble]
    · intro _ _ h; simp [itDual, itUnbounded] at h
  have hInv : BoundInv cfg₀ (ER.fin 6) state₀ := by
    refine ⟨by simp [state₀], by simp [state₀]⟩
  exact bound_consistency_invariant cfg₀ (ER.fin 6) state₀
    [Ev.rootIter itDual]
    (Sound.cons _ _ _ hOK (Sound.nil _)) hInv

end HighsMip
